import Mathlib

/-!
Verification of the quota-and-conversion core of `bot.py` (a PDF-to-text
bot with a per-user daily page quota).  The Python source is shallowly
embedded below: the two sqlite tables become a record of two finite maps,
each DB helper becomes a pure state-passing function, and the document
handler becomes a function from (user, day, filename, parsed document,
state) to (result, state).  Machine strings are `List Char`; Python string
helpers (`strip`, `upper`, `lower`, `re.split`) are reimplemented
character by character for the ASCII range the program uses.
-/

/-- Strings of the embedded program: Python `str` as a list of characters. -/
abbrev Str := List Char

/-- Python whitespace test (`str.isspace` / regex class for the ASCII range):
space, tab, newline, carriage return, vertical tab, form feed. -/
def isPySpace (c : Char) : Bool :=
  c == ' ' || c == '\t' || c == '\n' || c == '\r' || c == '\x0b' || c == '\x0c'

/-- Right part of Python `str.strip`: remove trailing whitespace. -/
def pyStripRight (l : Str) : Str :=
  (l.reverse.dropWhile isPySpace).reverse

/-- Python `str.strip()`: remove leading and trailing whitespace. -/
def pyStrip (l : Str) : Str :=
  (pyStripRight l).dropWhile isPySpace

/-- Python `str.upper()` on the ASCII range. -/
def pyUpper (l : Str) : Str := l.map Char.toUpper

/-- Python `str.lower()` on the ASCII range. -/
def pyLower (l : Str) : Str := l.map Char.toLower

/-- Python `filename.endswith(".pdf")` (bot.py line 287). -/
def endsWithPdf (l : Str) : Bool :=
  l.reverse.take 4 == ['f', 'd', 'p', '.']

/-- Plan identifier FREE. -/
def FREE : Str := ("FREE").toList

/-- Plan identifier BASIC. -/
def BASIC : Str := ("BASIC").toList

/-- Plan identifier STANDARD. -/
def STANDARD : Str := ("STANDARD").toList

/-- Plan identifier PREMIUM. -/
def PREMIUM : Str := ("PREMIUM").toList

/-- The `PLANS` dict of bot.py lines 42-47: plan id to daily page limit;
`none` models a missing key. -/
def PLANS (p : Str) : Option Nat :=
  if p = FREE then some 10
  else if p = BASIC then some 50
  else if p = STANDARD then some 120
  else if p = PREMIUM then some 300
  else none

/-- The persistent store of bot.py (lines 62-81): table `users(user_id, plan)`
and table `usage(user_id, day, pages_used)`; `none` models an absent row. -/
structure DB where
  users : Nat → Option Str
  usage : Nat → Str → Option Nat

/-- A freshly initialised database: both tables empty. -/
def db0 : DB := DB.mk (fun _ => none) (fun _ _ => none)

/-- `ensure_user` (bot.py lines 88-93): `INSERT OR IGNORE` of the row
`(user_id, 'FREE')` into `users`. -/
def ensure_user (u : Nat) (s : DB) : DB :=
  match s.users u with
  | some _ => s
  | none => DB.mk (Function.update s.users u (some FREE)) s.usage

/-- `get_user_plan` (bot.py lines 96-101): ensure the user exists, read the
plan, defaulting to FREE, and apply `.upper()`.  Returns the read value and
the post-state. -/
def get_user_plan (u : Nat) (s : DB) : Str × DB :=
  let s1 := ensure_user u s
  (pyUpper ((s1.users u).getD FREE), s1)

/-- `set_user_plan` (bot.py lines 103-109): normalise with
`plan.upper().strip()`, raise `ValueError` (here: the `false` flag, with the
state unchanged, since the raise precedes every write) when the normalised
plan is not a `PLANS` key, otherwise ensure the user row and overwrite its
plan. -/
def set_user_plan (u : Nat) (plan : Str) (s : DB) : DB × Bool :=
  let p := pyStrip (pyUpper plan)
  if PLANS p = none then (s, false)
  else
    let s1 := ensure_user u s
    (DB.mk (Function.update s1.users u (some p)) s1.usage, true)

/-- `get_usage_today` (bot.py lines 112-120): ensure the user exists and read
`pages_used` for the given day, defaulting to 0 when the row is absent.  The
day string is a parameter standing for `today_utc_str()`. -/
def get_usage_today (day : Str) (u : Nat) (s : DB) : Nat × DB :=
  let s1 := ensure_user u s
  ((s1.usage u day).getD 0, s1)

/-- `add_usage_today` (bot.py lines 123-134): ensure the user exists and run
the additive upsert `INSERT ... ON CONFLICT(user_id, day) DO UPDATE SET
pages_used = pages_used + excluded.pages_used`. -/
def add_usage_today (day : Str) (u : Nat) (pages : Nat) (s : DB) : DB :=
  let s1 := ensure_user u s
  DB.mk s1.users
    (Function.update s1.usage u
      (Function.update (s1.usage u) day (some ((s1.usage u day).getD 0 + pages))))

/-- The value `usageToday(user_id)` reads: `pages_used` for `(u, day)`,
0 when the row is absent. -/
def usedIn (day : Str) (u : Nat) (s : DB) : Nat :=
  (s.usage u day).getD 0

/-- The plan string `get_user_plan` yields for `u` in state `s`. -/
def planOf (u : Nat) (s : DB) : Str :=
  pyUpper (((ensure_user u s).users u).getD FREE)

/-- The daily limit the handler computes (bot.py line 303):
`PLANS.get(plan, PLANS["FREE"])`. -/
def limitOf (u : Nat) (s : DB) : Nat :=
  (PLANS (planOf u s)).getD 10

/-- `extract_text_from_pdf` (bot.py lines 190-202) on an already-parsed
document, abstracted as the list of its per-page extracted texts (the values
of `page.get_text("text")` in page order): the page texts are joined with a
single newline `"\n".join(parts)` and the whole result is stripped. -/
def extract_text_from_pdf (ps : List Str) : Str × Nat :=
  (pyStrip (List.intercalate (['\n']) ps), ps.length)

/-- Length of the portion a match of the regex `\n\s*\n` consumes after its
leading newline (Python `re`, greedy `\s*` with backtracking): the maximal
whitespace run that follows, cut after its last newline; `none` when that
run holds no newline, i.e. no match starts here. -/
def matchTailLen (cs : Str) : Option Nat :=
  let run := cs.takeWhile isPySpace
  let t := run.reverse.dropWhile (fun c => !(c == '\n'))
  if t.isEmpty then none else some t.length

/-- Left-to-right scan of `re.split(r"\n\s*\n", s)` (bot.py line 208):
`acc` holds the current segment reversed; at each newline that starts a
match the segment is closed and the scan resumes after the match.  The
fuel argument only pays for termination; `length + 1` always suffices. -/
def splitGoF : Nat → Str → Str → List Str
  | 0, acc, _ => [acc.reverse]
  | _ + 1, acc, [] => [acc.reverse]
  | fuel + 1, acc, c :: rest =>
    if c = '\n' then
      match matchTailLen rest with
      | some n => acc.reverse :: splitGoF fuel [] (rest.drop n)
      | none => splitGoF fuel (c :: acc) rest
    else splitGoF fuel (c :: acc) rest

/-- `re.split(r"\n\s*\n", s)`: the segments of `s` between blank-line
separators, empty segments included, as Python `re.split` returns them. -/
def reSplitBlank (s : Str) : List Str := splitGoF (s.length + 1) [] s

/-- `build_docx_bytes` (bot.py lines 205-212), abstracted to the structural
content of the produced document: the list of paragraph texts, one
`add_paragraph(para.strip())` per segment of
`re.split(r"\n\s*\n", text.strip() or "")`. -/
def build_docx_paragraphs (text : Str) : List Str :=
  (reSplitBlank (pyStrip text)).map pyStrip

/-- The values the quota section of `handle_document` computes
(bot.py lines 302-316): whether the reservation went through, and the
`plan`, `limit` and `used` variables in scope there. -/
structure QuotaOut where
  ok : Bool
  plan : Str
  limit : Nat
  used : Nat
deriving DecidableEq

/-- The check-then-debit section of `handle_document` (bot.py lines
302-316).  This segment of the handler contains no `await`, so the asyncio
event loop runs it without interleaving: it is one atomic step of any
concurrent execution.  It reads the plan and today's usage and either debits
`pages` (when `used + pages <= limit`) or leaves the usage untouched. -/
def quotaStep (day : Str) (u : Nat) (pages : Nat) (s : DB) : QuotaOut × DB :=
  let pr := get_user_plan u s
  let plan := pr.1
  let limit := (PLANS plan).getD 10
  let ur := get_usage_today day u pr.2
  let used := ur.1
  if limit < used + pages then
    (QuotaOut.mk false plan limit used, ur.2)
  else
    (QuotaOut.mk true plan limit used, add_usage_today day u pages ur.2)

/-- A submitted document after download: either unreadable (the
`fitz.open` / parse step raises) or a readable document given by its
per-page extracted texts. -/
inductive Pdf where
  | unreadable : Pdf
  | pages : List Str → Pdf

/-- The observable outcome of `handle_document`, one constructor per reply
shape of bot.py lines 279-340: the non-PDF refusal (line 288), the parse
failure (line 299), the limit refusal carrying the plan name and the
remaining allowance (lines 307-313), and the success carrying the text, the
`used_after/limit` caption values and the optional DOCX paragraph list
(lines 319-340). -/
inductive HandleResult where
  | notPdf : HandleResult
  | unreadable : HandleResult
  | limitReached : Str → Nat → HandleResult
  | completed : Str → Nat → Nat → Option (List Str) → HandleResult
deriving DecidableEq

/-- `handle_document` (bot.py lines 279-340): ensure the user, check the
filename extension, extract text and page count, run the quota section, and
on success re-read the usage for the caption and build the DOCX for PREMIUM
plans.  `day` stands for `today_utc_str()` during the call. -/
def handle_document (day : Str) (u : Nat) (filename : Str) (doc : Pdf)
    (s : DB) : HandleResult × DB :=
  let s0 := ensure_user u s
  if endsWithPdf (pyLower filename) = false then (HandleResult.notPdf, s0)
  else
    match doc with
    | Pdf.unreadable => (HandleResult.unreadable, s0)
    | Pdf.pages ps =>
      let text := (extract_text_from_pdf ps).1
      let pages := (extract_text_from_pdf ps).2
      let q := quotaStep day u pages s0
      if q.1.ok = false then
        (HandleResult.limitReached q.1.plan (q.1.limit - q.1.used), q.2)
      else
        let ua := get_usage_today day u q.2
        let docx := if q.1.plan = PREMIUM
          then some (build_docx_paragraphs text) else none
        (HandleResult.completed text ua.1 q.1.limit docx, ua.2)

/-- Ledger-touching atomic steps of an interleaved execution for one
`(user, day)` key.  Handler code between `await` points runs without
interleaving, so each concurrent `handle_document` contributes its
`ensure_user` prologue (line 282) and its quota section (lines 302-316) as
two atomic events; the downloads and replies between them touch no ledger
state.  A schedule is any list of such events. -/
inductive LedgerEv where
  | ensure : LedgerEv
  | reserve : Nat → LedgerEv

/-- Run a schedule of ledger events for user `u` on day `day`, returning the
final store and, for each reserve event in order, its page count and whether
it was granted. -/
def runSched (day : Str) (u : Nat) : List LedgerEv → DB → DB × List (Nat × Bool)
  | [], s => (s, [])
  | LedgerEv.ensure :: evs, s => runSched day u evs (ensure_user u s)
  | LedgerEv.reserve p :: evs, s =>
    let q := quotaStep day u p s
    let r := runSched day u evs q.2
    (r.1, (p, q.1.ok) :: r.2)

/-- Total pages of the granted reservations of a run. -/
def reservedSum (l : List (Nat × Bool)) : Nat :=
  l.foldr (fun pr acc => if pr.2 then pr.1 + acc else acc) 0

/-- Modelled from the spec: the claimed per-page join of `extract`, pages
joined by a single blank-line separator (the two-newline string), for
comparison with `extract_text_from_pdf`, which joins with one newline. -/
def extractBlankLineJoin (ps : List Str) : Str × Nat :=
  (pyStrip (List.intercalate (['\n', '\n']) ps), ps.length)

/-- Modelled from the spec: the claimed paragraph blocks of
`toSecondaryFormat`, one block per non-empty segment with empty segments
dropped, for comparison with `build_docx_paragraphs`. -/
def specParagraphBlocks (text : Str) : List Str :=
  ((reSplitBlank (pyStrip text)).filter (fun seg => !seg.isEmpty)).map pyStrip

/-- A fixed day string, standing for one value of `today_utc_str()`. -/
def dayC : Str := ("2026-10-12").toList

/-- A concrete acceptable filename. -/
def fnC : Str := ("a.pdf").toList

/-- A readable document with `n` pages, each with the one-letter text x. -/
def docN (n : Nat) : Pdf := Pdf.pages (List.replicate n (['x']))

/-- A store reached by giving user 1 the BASIC plan, converting an 11-page
document, then downgrading the user to FREE: usage 11 exceeds the limit 10. -/
def c2sA : DB :=
  (set_user_plan 1 FREE
    ((handle_document dayC 1 fnC (docN 11) (set_user_plan 1 BASIC db0).1).2)).1

/-- The same run with a 12-page document: usage 12 over the same limit 10. -/
def c2sB : DB :=
  (set_user_plan 1 FREE
    ((handle_document dayC 1 fnC (docN 12) (set_user_plan 1 BASIC db0).1).2)).1

/-- A store in which user 1 has already used 8 pages today. -/
def s8C : DB := add_usage_today dayC 1 8 db0

/-- A store in which user 1 exists with the FREE plan. -/
def db1 : DB := ensure_user 1 db0

/-! ### Store lemmas -/

/-- `ensure_user` never touches the usage table. -/
theorem ensure_usage (u : Nat) (s : DB) : (ensure_user u s).usage = s.usage := by
  unfold ensure_user
  cases s.users u <;> rfl

/-- After `ensure_user`, the user's row exists, holding the old plan or FREE. -/
theorem ensure_users_at (u : Nat) (s : DB) :
    (ensure_user u s).users u = some ((s.users u).getD FREE) := by
  cases h : s.users u <;> simp [ensure_user, h]

/-- `INSERT OR IGNORE` is the identity when the row exists. -/
theorem ensure_of_some {u : Nat} {s : DB} {p : Str} (h : s.users u = some p) :
    ensure_user u s = s := by
  simp [ensure_user, h]

/-- `ensure_user` is idempotent. -/
theorem ensure_idem (u : Nat) (s : DB) :
    ensure_user u (ensure_user u s) = ensure_user u s :=
  ensure_of_some (ensure_users_at u s)

/-- The plan the handler reads, in terms of the raw stored row. -/
theorem planOf_eq (u : Nat) (s : DB) :
    planOf u s = pyUpper ((s.users u).getD FREE) := by
  unfold planOf
  rw [ensure_users_at]
  rfl

/-- `ensure_user` does not change the plan the handler reads. -/
theorem planOf_ensure (u : Nat) (s : DB) :
    planOf u (ensure_user u s) = planOf u s := by
  rw [planOf_eq, planOf_eq, ensure_users_at]
  rfl

/-- The users row after `add_usage_today`. -/
theorem add_users_at (day : Str) (u : Nat) (p : Nat) (s : DB) :
    (add_usage_today day u p s).users u = some ((s.users u).getD FREE) := by
  show (ensure_user u s).users u = _
  exact ensure_users_at u s

/-- `add_usage_today` does not change the plan the handler reads. -/
theorem planOf_add (day : Str) (u : Nat) (p : Nat) (s : DB) :
    planOf u (add_usage_today day u p s) = planOf u s := by
  rw [planOf_eq, planOf_eq, add_users_at]
  rfl

/-- The limit is stable under `ensure_user`. -/
theorem limitOf_ensure (u : Nat) (s : DB) :
    limitOf u (ensure_user u s) = limitOf u s := by
  unfold limitOf
  rw [planOf_ensure]

/-- The limit is stable under `add_usage_today`. -/
theorem limitOf_add (day : Str) (u : Nat) (p : Nat) (s : DB) :
    limitOf u (add_usage_today day u p s) = limitOf u s := by
  unfold limitOf
  rw [planOf_add]

/-- `ensure_user` does not change today's usage. -/
theorem usedIn_ensure (day : Str) (u v : Nat) (s : DB) :
    usedIn day u (ensure_user v s) = usedIn day u s := by
  unfold usedIn
  rw [ensure_usage]

/-- The usage row after the additive upsert. -/
theorem usage_add_at (day : Str) (u : Nat) (p : Nat) (s : DB) :
    (add_usage_today day u p s).usage u day = some (usedIn day u s + p) := by
  unfold add_usage_today usedIn
  simp [ensure_usage]

/-- The additive upsert adds exactly `p` to today's usage. -/
theorem usedIn_add_same (day : Str) (u : Nat) (p : Nat) (s : DB) :
    usedIn day u (add_usage_today day u p s) = usedIn day u s + p := by
  unfold usedIn
  rw [usage_add_at]
  rfl

/-- What `get_usage_today` returns, in terms of the raw table. -/
theorem get_usage_fst (day : Str) (u : Nat) (s : DB) :
    (get_usage_today day u s).1 = usedIn day u s := by
  unfold get_usage_today usedIn
  simp [ensure_usage]

/-- Characterisation of the atomic check-then-debit section: it grants the
reservation and debits exactly when `used + pages <= limit`, and otherwise
leaves the usage table untouched, returning the plan, limit and usage it
read. -/
theorem quotaStep_eq (day : Str) (u : Nat) (pages : Nat) (s : DB) :
    quotaStep day u pages s =
      if limitOf u s < usedIn day u s + pages then
        (QuotaOut.mk false (planOf u s) (limitOf u s) (usedIn day u s),
          ensure_user u s)
      else
        (QuotaOut.mk true (planOf u s) (limitOf u s) (usedIn day u s),
          add_usage_today day u pages (ensure_user u s)) := by
  unfold quotaStep get_user_plan get_usage_today limitOf planOf usedIn
  dsimp only
  rw [ensure_idem, ensure_usage]

/-! ### The interleaving bound (claim C1) -/

/-- A run of ledger events starting within the limit keeps the granted total
plus the starting usage within the limit. -/
theorem runSched_le (day : Str) (u : Nat) :
    ∀ (evs : List LedgerEv) (s : DB), usedIn day u s ≤ limitOf u s →
      reservedSum (runSched day u evs s).2 + usedIn day u s ≤ limitOf u s := by
  intro evs
  induction evs with
  | nil =>
    intro s h
    simpa [runSched, reservedSum] using h
  | cons ev evs ih =>
    intro s h
    cases ev with
    | ensure =>
      have h2 := ih (ensure_user u s)
        (by rw [usedIn_ensure, limitOf_ensure]; exact h)
      rw [usedIn_ensure, limitOf_ensure] at h2
      simpa [runSched] using h2
    | reserve p =>
      by_cases hc : limitOf u s < usedIn day u s + p
      · have hq : quotaStep day u p s =
            (QuotaOut.mk false (planOf u s) (limitOf u s) (usedIn day u s),
              ensure_user u s) := by
          rw [quotaStep_eq, if_pos hc]
        have h2 := ih (ensure_user u s)
          (by rw [usedIn_ensure, limitOf_ensure]; exact h)
        rw [usedIn_ensure, limitOf_ensure] at h2
        simpa [runSched, hq, reservedSum] using h2
      · have hle : usedIn day u s + p ≤ limitOf u s := Nat.not_lt.mp hc
        have hq : quotaStep day u p s =
            (QuotaOut.mk true (planOf u s) (limitOf u s) (usedIn day u s),
              add_usage_today day u p (ensure_user u s)) := by
          rw [quotaStep_eq, if_neg hc]
        have hstate : usedIn day u (add_usage_today day u p (ensure_user u s))
            = usedIn day u s + p := by
          rw [usedIn_add_same, usedIn_ensure]
        have hlim : limitOf u (add_usage_today day u p (ensure_user u s))
            = limitOf u s := by
          rw [limitOf_add, limitOf_ensure]
        have h2 := ih (add_usage_today day u p (ensure_user u s))
          (by rw [hstate, hlim]; exact hle)
        rw [hstate, hlim] at h2
        simp only [runSched, hq, reservedSum] at h2 ⊢
        simp at h2 ⊢
        omega

/-- A run of ledger events starting beyond the limit grants nothing. -/
theorem runSched_gt (day : Str) (u : Nat) :
    ∀ (evs : List LedgerEv) (s : DB), limitOf u s < usedIn day u s →
      reservedSum (runSched day u evs s).2 = 0 := by
  intro evs
  induction evs with
  | nil =>
    intro s _
    simp [runSched, reservedSum]
  | cons ev evs ih =>
    intro s h
    cases ev with
    | ensure =>
      have h2 := ih (ensure_user u s)
        (by rw [usedIn_ensure, limitOf_ensure]; exact h)
      simpa [runSched] using h2
    | reserve p =>
      have hc : limitOf u s < usedIn day u s + p := by omega
      have hq : quotaStep day u p s =
          (QuotaOut.mk false (planOf u s) (limitOf u s) (usedIn day u s),
            ensure_user u s) := by
        rw [quotaStep_eq, if_pos hc]
      have h2 := ih (ensure_user u s)
        (by rw [usedIn_ensure, limitOf_ensure]; exact h)
      simpa [runSched, hq, reservedSum] using h2

/-! ### Handler characterisation -/

/-- Re-ensuring after a debit is the identity: the row already exists. -/
theorem ensure_add_ensure (day : Str) (u : Nat) (p : Nat) (s : DB) :
    ensure_user u (add_usage_today day u p (ensure_user u s))
      = add_usage_today day u p (ensure_user u s) :=
  ensure_of_some (add_users_at day u p (ensure_user u s))

/-- Full characterisation of `handle_document` on a readable PDF with an
accepted filename: within the limit it debits the page count, re-reads the
usage for the caption, and completes (with DOCX paragraphs exactly for the
PREMIUM plan); beyond the limit it answers with the plan and the remaining
allowance and performs no debit. -/
theorem handle_pages_spec (day : Str) (u : Nat) (fn : Str) (ps : List Str)
    (s : DB) (hf : endsWithPdf (pyLower fn) = true) :
    (usedIn day u s + ps.length ≤ limitOf u s →
      handle_document day u fn (Pdf.pages ps) s =
        (HandleResult.completed (extract_text_from_pdf ps).1
            (usedIn day u s + ps.length) (limitOf u s)
            (if planOf u s = PREMIUM
              then some (build_docx_paragraphs (extract_text_from_pdf ps).1)
              else none),
          add_usage_today day u ps.length (ensure_user u s))) ∧
    (limitOf u s < usedIn day u s + ps.length →
      handle_document day u fn (Pdf.pages ps) s =
        (HandleResult.limitReached (planOf u s) (limitOf u s - usedIn day u s),
          ensure_user u s)) := by
  have hqe : quotaStep day u ps.length (ensure_user u s) =
      if limitOf u s < usedIn day u s + ps.length then
        (QuotaOut.mk false (planOf u s) (limitOf u s) (usedIn day u s),
          ensure_user u s)
      else
        (QuotaOut.mk true (planOf u s) (limitOf u s) (usedIn day u s),
          add_usage_today day u ps.length (ensure_user u s)) := by
    rw [quotaStep_eq, planOf_ensure, limitOf_ensure, usedIn_ensure, ensure_idem]
  constructor
  · intro hle
    have hnlt : ¬ limitOf u s < usedIn day u s + ps.length := Nat.not_lt.mpr hle
    have h1 : quotaStep day u ps.length (ensure_user u s) =
        (QuotaOut.mk true (planOf u s) (limitOf u s) (usedIn day u s),
          add_usage_today day u ps.length (ensure_user u s)) := by
      rw [hqe, if_neg hnlt]
    have h2 : (extract_text_from_pdf ps).2 = ps.length := rfl
    simp only [handle_document, hf, Bool.true_eq_false, if_false, h2, h1]
    rw [get_usage_fst]
    rw [usedIn_add_same, usedIn_ensure]
    have h3 : (get_usage_today day u
        (add_usage_today day u ps.length (ensure_user u s))).2
        = add_usage_today day u ps.length (ensure_user u s) :=
      ensure_add_ensure day u ps.length s
    rw [h3]
  · intro hlt
    have h1 : quotaStep day u ps.length (ensure_user u s) =
        (QuotaOut.mk false (planOf u s) (limitOf u s) (usedIn day u s),
          ensure_user u s) := by
      rw [hqe, if_pos hlt]
    have h2 : (extract_text_from_pdf ps).2 = ps.length := rfl
    simp only [handle_document, hf, Bool.true_eq_false, if_false, h2, h1]
    simp

/-! ### String lemmas: strip and the blank-line split -/

/-- The head of a `dropWhile` result falsifies the predicate. -/
theorem dropWhile_head_false {p : Char → Bool} :
    ∀ {l : Str} {c : Char}, (l.dropWhile p).head? = some c → p c = false := by
  intro l
  induction l with
  | nil => intro c h; simp [List.dropWhile] at h
  | cons a t ih =>
    intro c h
    by_cases hp : p a
    · rw [List.dropWhile_cons, if_pos hp] at h
      exact ih h
    · rw [List.dropWhile_cons, if_neg hp] at h
      simp at h
      subst h
      simpa using hp

/-- Dropping a head preserves `getLast?` on nonempty tails. -/
theorem getLast?_cons_ne (a : Char) (l : Str) (h : l ≠ []) :
    (a :: l).getLast? = l.getLast? := by
  cases l with
  | nil => exact absurd rfl h
  | cons b t => exact List.getLast?_cons_cons

/-- A nonempty `dropWhile` result keeps the last element of the list. -/
theorem dropWhile_getLast {p : Char → Bool} :
    ∀ (l : Str), l.dropWhile p ≠ [] → (l.dropWhile p).getLast? = l.getLast? := by
  intro l
  induction l with
  | nil => intro h; exact absurd rfl h
  | cons a t ih =>
    intro h
    by_cases hp : p a
    · rw [List.dropWhile_cons, if_pos hp] at h ⊢
      have ht : t ≠ [] := by
        intro he
        rw [he] at h
        exact h rfl
      rw [ih h, getLast?_cons_ne a t ht]
    · rw [List.dropWhile_cons, if_neg hp]

/-- A nonempty `drop` result keeps the last element of the list. -/
theorem getLast?_drop_eq :
    ∀ (n : Nat) (l : Str), l.drop n ≠ [] → (l.drop n).getLast? = l.getLast? := by
  intro n
  induction n with
  | zero => intro l _; rfl
  | succ m ih =>
    intro l h
    cases l with
    | nil => exact absurd rfl h
    | cons a t =>
      have hd : (a :: t).drop (m + 1) = t.drop m := rfl
      rw [hd] at h ⊢
      have ht : t ≠ [] := by
        intro he
        rw [he] at h
        simp at h
      rw [ih t h, getLast?_cons_ne a t ht]

/-- The stripped string starts with a non-whitespace character. -/
theorem pyStrip_head {l : Str} {c : Char} (h : (pyStrip l).head? = some c) :
    isPySpace c = false :=
  dropWhile_head_false h

/-- The right-stripped string ends with a non-whitespace character. -/
theorem pyStripRight_getLast {l : Str} {c : Char}
    (h : (pyStripRight l).getLast? = some c) : isPySpace c = false := by
  unfold pyStripRight at h
  rw [List.getLast?_reverse] at h
  exact dropWhile_head_false h

/-- The stripped string ends with a non-whitespace character. -/
theorem pyStrip_getLast {l : Str} {c : Char} (h : (pyStrip l).getLast? = some c) :
    isPySpace c = false := by
  unfold pyStrip at h
  have hne : (pyStripRight l).dropWhile isPySpace ≠ [] := by
    intro he
    rw [he] at h
    cases h
  rw [dropWhile_getLast (pyStripRight l) hne] at h
  exact pyStripRight_getLast h

/-- What a successful `matchTailLen` guarantees: the consumed part is
nonempty and inside the string, the first unconsumed character is never a
newline, and a fully consumed string ended with the matched newline. -/
theorem matchTail_spec {cs : Str} {n : Nat} (h : matchTailLen cs = some n) :
    1 ≤ n ∧ n ≤ cs.length ∧
    (∀ c, (cs.drop n).head? = some c → ¬ c = '\n') ∧
    (cs.drop n = [] → cs.getLast? = some '\n') := by
  have h1 : (if ((cs.takeWhile isPySpace).reverse.dropWhile
        (fun c => !(c == '\n'))).isEmpty then none
      else some ((cs.takeWhile isPySpace).reverse.dropWhile
        (fun c => !(c == '\n'))).length) = some n := h
  set run : Str := cs.takeWhile isPySpace with hrun
  set t : Str := run.reverse.dropWhile (fun c => !(c == '\n')) with ht
  by_cases he : t.isEmpty = true
  · rw [if_pos he] at h1
    cases h1
  · rw [if_neg he] at h1
    injection h1 with hn
    have htne : t ≠ [] := by
      intro hnil
      rw [hnil] at he
      simp at he
    set d : Str := run.reverse.takeWhile (fun c => !(c == '\n')) with hd
    have hdt : d ++ t = run.reverse :=
      List.takeWhile_append_dropWhile (fun c => !(c == '\n')) run.reverse
    have hrun2 : run = t.reverse ++ d.reverse := by
      have h2 := congrArg List.reverse hdt
      rw [List.reverse_append, List.reverse_reverse] at h2
      exact h2.symm
    have hcs : cs = run ++ cs.dropWhile isPySpace :=
      (List.takeWhile_append_dropWhile isPySpace cs).symm
    set r2 : Str := cs.dropWhile isPySpace with hr2
    have hcs2 : cs = t.reverse ++ (d.reverse ++ r2) := by
      rw [hcs, hrun2, List.append_assoc]
    have hlen : t.reverse.length = n := by
      rw [List.length_reverse]
      exact hn
    have hdrop : cs.drop n = d.reverse ++ r2 := by
      conv_lhs => rw [hcs2]
      rw [← hlen, List.drop_left]
    refine ⟨?_, ?_, ?_, ?_⟩
    · have := List.length_pos.mpr htne
      omega
    · have h2 := congrArg List.length hcs2
      rw [List.length_append, hlen] at h2
      omega
    · intro c hc
      rw [hdrop] at hc
      cases hdd : d with
      | nil =>
        rw [hdd] at hc
        simp only [List.reverse_nil, List.nil_append] at hc
        have hws := dropWhile_head_false (p := isPySpace) hc
        intro hceq
        rw [hceq] at hws
        simp [isPySpace] at hws
      | cons x xs =>
        have hrev : d.reverse ≠ [] := by
          rw [hdd]
          simp
        rw [List.head?_append_of_ne_nil _ hrev] at hc
        have hmem : c ∈ d.reverse := by
          cases hdr : d.reverse with
          | nil => rw [hdr] at hc; cases hc
          | cons y ys =>
            rw [hdr] at hc
            have : y = c := by
              have h3 : (y :: ys).head? = some y := rfl
              rw [h3] at hc
              injection hc
            rw [← this]
            exact List.mem_cons_self y ys
        have hmem2 : c ∈ d := List.mem_reverse.mp hmem
        rw [hd] at hmem2
        have hQ := List.mem_takeWhile_imp hmem2
        intro hceq
        rw [hceq] at hQ
        simp at hQ
    · intro hnil
      rw [hdrop] at hnil
      have hd0 := List.append_eq_nil.mp hnil
      have hcs3 : cs = t.reverse := by
        rw [hcs2, hd0.1, hd0.2]
        simp
      rw [hcs3, List.getLast?_reverse]
      cases hth : t with
      | nil => exact absurd hth htne
      | cons c0 ts =>
        have hQ := dropWhile_head_false (p := fun c => !(c == '\n'))
          (l := run.reverse) (c := c0) (by rw [← ht, hth]; rfl)
        have hc0 : c0 = '\n' := by simpa using hQ
        rw [hc0]
        rfl

/-- Unfolding: scan of the empty string. -/
theorem splitGoF_nil (fuel : Nat) (acc : Str) :
    splitGoF (fuel + 1) acc [] = [acc.reverse] := rfl

/-- Unfolding: a newline that starts a match closes the current segment. -/
theorem splitGoF_cons_match (fuel : Nat) (acc rest : Str) (n : Nat)
    (hm : matchTailLen rest = some n) :
    splitGoF (fuel + 1) acc ('\n' :: rest)
      = acc.reverse :: splitGoF fuel [] (rest.drop n) := by
  simp [splitGoF, hm]

/-- Unfolding: a newline that starts no match joins the current segment. -/
theorem splitGoF_cons_nomatch (fuel : Nat) (acc rest : Str)
    (hm : matchTailLen rest = none) :
    splitGoF (fuel + 1) acc ('\n' :: rest) = splitGoF fuel ('\n' :: acc) rest := by
  simp [splitGoF, hm]

/-- Unfolding: any other character joins the current segment. -/
theorem splitGoF_cons_other (fuel : Nat) (acc rest : Str) (c : Char)
    (hc : ¬ c = '\n') :
    splitGoF (fuel + 1) acc (c :: rest) = splitGoF fuel (c :: acc) rest := by
  simp [splitGoF, hc]

/-- Segments produced by the scan are nonempty, provided the accumulator is
nonempty or the input starts with a non-newline, and the input ends with a
non-whitespace character. -/
theorem splitGo_ne_nil :
    ∀ (fuel : Nat) (acc cs : Str), cs.length < fuel →
      (acc = [] → ∃ c t0, cs = c :: t0 ∧ ¬ c = '\n') →
      (∀ c, cs.getLast? = some c → isPySpace c = false) →
      ∀ seg ∈ splitGoF fuel acc cs, seg ≠ [] := by
  intro fuel
  induction fuel with
  | zero =>
    intro acc cs hlt h1 h2
    exact absurd hlt (Nat.not_lt_zero _)
  | succ f ih =>
    intro acc cs hlt h1 h2
    cases cs with
    | nil =>
      intro seg hseg
      have hacc : acc ≠ [] := by
        intro he
        rcases h1 he with ⟨c, t0, hct, _⟩
        cases hct
      rw [splitGoF_nil, List.mem_singleton] at hseg
      rw [hseg]
      simpa using hacc
    | cons c rest =>
      by_cases hcn : c = '\n'
      · subst hcn
        have hacc : acc ≠ [] := by
          intro he
          rcases h1 he with ⟨c0, t0, hct, hc0⟩
          injection hct with hx _
          exact hc0 hx.symm
        cases hm : matchTailLen rest with
        | none =>
          intro seg hseg
          rw [splitGoF_cons_nomatch f acc rest hm] at hseg
          refine ih ('\n' :: acc) rest ?_ ?_ ?_ seg hseg
          · simp at hlt
            omega
          · intro he
            cases he
          · intro c0 hc0
            have hrne : rest ≠ [] := by
              intro he
              rw [he] at hc0
              cases hc0
            apply h2 c0
            rw [getLast?_cons_ne _ _ hrne]
            exact hc0
        | some nn =>
          obtain ⟨hn1, hn2, hhead, hlast⟩ := matchTail_spec hm
          intro seg hseg
          rw [splitGoF_cons_match f acc rest nn hm] at hseg
          rcases List.mem_cons.mp hseg with hseg1 | hseg2
          · rw [hseg1]
            simpa using hacc
          · have hrne : rest ≠ [] := by
              intro he
              rw [he] at hn2
              simp at hn2
              omega
            have hdropne : rest.drop nn ≠ [] := by
              intro he
              have hlast2 := hlast he
              have hcl : ('\n' :: rest).getLast? = some '\n' := by
                rw [getLast?_cons_ne _ _ hrne]
                exact hlast2
              have hws := h2 '\n' hcl
              simp [isPySpace] at hws
            obtain ⟨c1, t1, hct⟩ : ∃ c1 t1, rest.drop nn = c1 :: t1 := by
              cases hdd : rest.drop nn with
              | nil => exact absurd hdd hdropne
              | cons a b => exact ⟨a, b, rfl⟩
            have hc1 : ¬ c1 = '\n' := hhead c1 (by rw [hct]; rfl)
            refine ih [] (rest.drop nn) ?_ ?_ ?_ seg hseg2
            · have hld : (rest.drop nn).length = rest.length - nn :=
                List.length_drop nn rest
              simp at hlt
              omega
            · intro _
              exact ⟨c1, t1, hct, hc1⟩
            · intro c0 hc0
              have h3 := (getLast?_drop_eq nn rest hdropne).symm.trans hc0
              apply h2 c0
              rw [getLast?_cons_ne _ _ hrne]
              exact h3
      · intro seg hseg
        rw [splitGoF_cons_other f acc rest c hcn] at hseg
        refine ih (c :: acc) rest ?_ ?_ ?_ seg hseg
        · simp at hlt
          omega
        · intro he
          cases he
        · intro c0 hc0
          have hrne : rest ≠ [] := by
            intro he
            rw [he] at hc0
            cases hc0
          apply h2 c0
          rw [getLast?_cons_ne _ _ hrne]
          exact hc0

/-- On a nonempty stripped text every segment of the blank-line split is
nonempty: stripping removes the only sources of empty segments. -/
theorem reSplitBlank_nonempty (l : Str) (h : pyStrip l ≠ []) :
    ∀ seg ∈ reSplitBlank (pyStrip l), seg ≠ [] := by
  unfold reSplitBlank
  apply splitGo_ne_nil
  · omega
  · intro _
    cases hh : pyStrip l with
    | nil => exact absurd hh h
    | cons c t =>
      refine ⟨c, t, rfl, ?_⟩
      have hws := pyStrip_head (l := l) (c := c) (by rw [hh]; rfl)
      intro he
      rw [he] at hws
      simp [isPySpace] at hws
  · intro c hc
    exact pyStrip_getLast hc

/-! ### Claims -/

/-- Claim C1: for every sequence of concurrent tryReserve calls for the same
(user, day), each with its own pages value, the sum of pages across the
calls that are granted never exceeds the plan's daily limit, for every
interleaving of the calls.  The check-then-debit segment of
`handle_document` (bot.py lines 302-316) contains no await point, so the
asyncio event loop cannot interleave two handlers inside it; every
interleaving of concurrent calls is therefore a schedule of atomic ledger
events, and every schedule keeps the granted total within the limit. -/
theorem c1_reserved_sum_le_limit (day : Str) (u : Nat) (evs : List LedgerEv)
    (s : DB) : reservedSum (runSched day u evs s).2 ≤ limitOf u s := by
  rcases le_or_lt (usedIn day u s) (limitOf u s) with hle | hlt
  · have := runSched_le day u evs s hle
    omega
  · rw [runSched_gt day u evs s hlt]
    exact Nat.zero_le _

/-- Claim C2 counterexample: the rejection does not carry the current usage.
Two reachable stores with usages 11 and 12 (BASIC upgrade, conversion,
downgrade to FREE) produce identical rejections, namely the plan FREE with
remaining allowance 0, so the rejection cannot carry `pages_used`. -/
theorem c2_counterexample :
    (handle_document dayC 1 fnC (docN 1) c2sA).1
        = (handle_document dayC 1 fnC (docN 1) c2sB).1 ∧
    (handle_document dayC 1 fnC (docN 1) c2sA).1
        = HandleResult.limitReached FREE 0 ∧
    (get_usage_today dayC 1 c2sA).1 = 11 ∧
    (get_usage_today dayC 1 c2sB).1 = 12 := by decide

/-- Claim C2 (amended): for every user and pages value, the handler reads
pages_used for the current UTC day and completes, persisting
pages_used + pages, exactly when pages_used + pages <= limit; otherwise it
writes nothing to the usage table and returns a rejection carrying the plan
and the remaining allowance max(0, limit - pages_used). -/
theorem c2_amended (day : Str) (u : Nat) (fn : Str) (ps : List Str) (s : DB)
    (hf : endsWithPdf (pyLower fn) = true) :
    (usedIn day u s + ps.length ≤ limitOf u s →
      (handle_document day u fn (Pdf.pages ps) s).1
          = HandleResult.completed (extract_text_from_pdf ps).1
              (usedIn day u s + ps.length) (limitOf u s)
              (if planOf u s = PREMIUM
                then some (build_docx_paragraphs (extract_text_from_pdf ps).1)
                else none) ∧
      ((handle_document day u fn (Pdf.pages ps) s).2).usage u day
          = some (usedIn day u s + ps.length)) ∧
    (limitOf u s < usedIn day u s + ps.length →
      (handle_document day u fn (Pdf.pages ps) s).1
          = HandleResult.limitReached (planOf u s)
              (limitOf u s - usedIn day u s) ∧
      ((handle_document day u fn (Pdf.pages ps) s).2).usage = s.usage) := by
  have h := handle_pages_spec day u fn ps s hf
  constructor
  · intro hle
    have he := h.1 hle
    constructor
    · rw [he]
    · rw [he]
      show (add_usage_today day u ps.length (ensure_user u s)).usage u day = _
      rw [usage_add_at, usedIn_ensure]
  · intro hlt
    have he := h.2 hlt
    constructor
    · rw [he]
    · rw [he]
      exact ensure_usage u s

/-- Claim C2 amended, witnessed: a fresh FREE user converts one page and the
handler completes with usage 1 of limit 10. -/
theorem c2_amended_witness :
    endsWithPdf (pyLower fnC) = true ∧
    (handle_document dayC 2 fnC (Pdf.pages [['x']]) db0).1
        = HandleResult.completed ['x'] 1 10 none :=
  ⟨by decide, by
    have h := ((c2_amended dayC 2 fnC ([['x']]) db0 (by decide)).1 (by decide)).1
    exact h.trans (by decide)⟩

/-- Claim C3: a reservation attempt that is rejected leaves usageToday
unchanged; the usage table is untouched on the rejection path. -/
theorem c3_rejected_leaves_usage (day : Str) (u : Nat) (p : Nat) (s : DB)
    (hok : (quotaStep day u p s).1.ok = false) :
    ((quotaStep day u p s).2).usage = s.usage ∧
    (get_usage_today day u ((quotaStep day u p s).2)).1
        = (get_usage_today day u s).1 := by
  by_cases hc : limitOf u s < usedIn day u s + p
  · rw [quotaStep_eq, if_pos hc]
    exact ⟨ensure_usage u s, by rw [get_usage_fst, get_usage_fst, usedIn_ensure]⟩
  · rw [quotaStep_eq, if_neg hc] at hok
    simp at hok

/-- Claim C3 witnessed on the spec scenario: a user at 8 pages reserves 2
(usage becomes 10), then a 1-page reservation is rejected and usage stays
10. -/
theorem c3_witness :
    (quotaStep dayC 1 1 (quotaStep dayC 1 2 s8C).2).1.ok = false ∧
    ((quotaStep dayC 1 1 (quotaStep dayC 1 2 s8C).2).2).usage
        = ((quotaStep dayC 1 2 s8C).2).usage ∧
    (get_usage_today dayC 1 (quotaStep dayC 1 1 (quotaStep dayC 1 2 s8C).2).2).1
        = (get_usage_today dayC 1 (quotaStep dayC 1 2 s8C).2).1 :=
  ⟨by decide, (c3_rejected_leaves_usage dayC 1 1 _ (by decide)).1,
    (c3_rejected_leaves_usage dayC 1 1 _ (by decide)).2⟩

/-- Claim C4: usageToday immediately after a granted reservation of p pages
equals the pre-call usage plus exactly p. -/
theorem c4_reserved_adds_pages (day : Str) (u : Nat) (p : Nat) (s : DB)
    (hok : (quotaStep day u p s).1.ok = true) :
    (get_usage_today day u ((quotaStep day u p s).2)).1
        = (get_usage_today day u s).1 + p := by
  by_cases hc : limitOf u s < usedIn day u s + p
  · rw [quotaStep_eq, if_pos hc] at hok
    simp at hok
  · rw [quotaStep_eq, if_neg hc]
    rw [get_usage_fst, get_usage_fst]
    show usedIn day u (add_usage_today day u p (ensure_user u s)) = _
    rw [usedIn_add_same, usedIn_ensure]

/-- Claim C4 witnessed: a fresh user reserves 3 pages and usageToday goes
from 0 to 3. -/
theorem c4_witness :
    (quotaStep dayC 1 3 db0).1.ok = true ∧
    (get_usage_today dayC 1 (quotaStep dayC 1 3 db0).2).1
        = (get_usage_today dayC 1 db0).1 + 3 :=
  ⟨by decide, c4_reserved_adds_pages dayC 1 3 db0 (by decide)⟩

/-- Claim C5 counterexample: a whitespace-only one-page document is not
rejected as NoExtractableText; the handler completes, charges one page, and
delivers an empty text artifact.  The code has no empty-text check. -/
theorem c5_counterexample :
    (handle_document dayC 7 fnC (Pdf.pages [[' ']]) db0).1
        = HandleResult.completed [] 1 10 none ∧
    usedIn dayC 7 (handle_document dayC 7 fnC (Pdf.pages [[' ']]) db0).2 = 1 := by
  decide

/-- Claim C5 (amended): a document whose extracted text is empty or
whitespace-only is not rejected; the handler proceeds to the quota check
and, within the limit, charges the full page count and delivers an empty
text artifact. -/
theorem c5_amended (day : Str) (u : Nat) (fn : Str) (ps : List Str) (s : DB)
    (hf : endsWithPdf (pyLower fn) = true)
    (htext : pyStrip (List.intercalate (['\n']) ps) = [])
    (hle : usedIn day u s + ps.length ≤ limitOf u s) :
    (handle_document day u fn (Pdf.pages ps) s).1
        = HandleResult.completed [] (usedIn day u s + ps.length) (limitOf u s)
            (if planOf u s = PREMIUM
              then some (build_docx_paragraphs []) else none) ∧
    ((handle_document day u fn (Pdf.pages ps) s).2).usage u day
        = some (usedIn day u s + ps.length) := by
  have he := (handle_pages_spec day u fn ps s hf).1 hle
  have htxt : (extract_text_from_pdf ps).1 = [] := htext
  constructor
  · rw [he]
    show HandleResult.completed (extract_text_from_pdf ps).1 _ _ _ = _
    rw [htxt]
  · rw [he]
    show (add_usage_today day u ps.length (ensure_user u s)).usage u day = _
    rw [usage_add_at, usedIn_ensure]

/-- Claim C5 amended, witnessed: a fresh user submits a whitespace-only
one-page document and the handler completes with one page charged. -/
theorem c5_amended_witness :
    endsWithPdf (pyLower fnC) = true ∧
    pyStrip (List.intercalate (['\n']) [[' ']]) = [] ∧
    usedIn dayC 8 db0 + 1 ≤ limitOf 8 db0 ∧
    (handle_document dayC 8 fnC (Pdf.pages [[' ']]) db0).1
        = HandleResult.completed [] 1 10 none :=
  ⟨by decide, by decide, by decide, by
    have h := (c5_amended dayC 8 fnC ([[' ']]) db0 (by decide) (by decide)
      (by decide)).1
    exact h.trans (by decide)⟩

/-- Claim C6 counterexample: extract does not join the per-page texts with a
blank-line separator; on the pages a and b it yields the single-newline
join, not the blank-line join. -/
theorem c6_counterexample :
    extract_text_from_pdf ([['a'], ['b']]) = (['a', '\n', 'b'], 2) ∧
    extract_text_from_pdf ([['a'], ['b']])
        ≠ extractBlankLineJoin ([['a'], ['b']]) := by
  decide

/-- Claim C6 (amended): extract returns the per-page texts concatenated in
page order joined by a single newline, the whole result trimmed of leading
and trailing whitespace, and it does not fail on an empty document, which
yields page count 0 and empty text. -/
theorem c6_amended (ps : List Str) :
    (extract_text_from_pdf ps).2 = ps.length ∧
    (extract_text_from_pdf ps).1 = pyStrip (List.intercalate (['\n']) ps) ∧
    (∀ c, ((extract_text_from_pdf ps).1).head? = some c → isPySpace c = false) ∧
    (∀ c, ((extract_text_from_pdf ps).1).getLast? = some c → isPySpace c = false) ∧
    extract_text_from_pdf [] = ([], 0) :=
  ⟨rfl, rfl, fun _ h => pyStrip_head h, fun _ h => pyStrip_getLast h, rfl⟩

/-- Claim C6 amended, witnessed on the two-page document a, b. -/
theorem c6_amended_witness :
    (extract_text_from_pdf ([['a'], ['b']])).2 = 2 ∧
    isPySpace 'a' = false ∧
    isPySpace 'b' = false :=
  ⟨((c6_amended ([['a'], ['b']])).1).trans (by decide),
    (c6_amended ([['a'], ['b']])).2.2.1 'a' (by decide),
    (c6_amended ([['a'], ['b']])).2.2.2.1 'b' (by decide)⟩

/-- Claim C7 counterexample: on empty input the code emits one empty
paragraph block, while the claimed behaviour, dropping empty segments,
would emit none: re.split on the empty string returns one empty segment
and the block is added unconditionally. -/
theorem c7_counterexample :
    build_docx_paragraphs [] = [([] : Str)] ∧
    specParagraphBlocks [] = [] ∧
    build_docx_paragraphs [] ≠ specParagraphBlocks [] := by decide

/-- Claim C7 (amended): for every input string toSecondaryFormat does not
fail and emits exactly one paragraph block per segment of the blank-line
split of the stripped text, each block stripped; when the stripped text is
nonempty every segment is nonempty, so nothing is dropped, and empty or
whitespace-only input yields exactly one empty paragraph block. -/
theorem c7_amended (text : Str) :
    build_docx_paragraphs text = (reSplitBlank (pyStrip text)).map pyStrip ∧
    (pyStrip text ≠ [] → ∀ seg ∈ reSplitBlank (pyStrip text), seg ≠ []) ∧
    build_docx_paragraphs [] = [([] : Str)] :=
  ⟨rfl, fun h => reSplitBlank_nonempty text h, by decide⟩

/-- Claim C7 amended, witnessed on the text a-blank-line-b: the stripped
text is nonempty and no empty segment occurs in its split. -/
theorem c7_amended_witness :
    build_docx_paragraphs (['a', '\n', '\n', 'b'])
        = (reSplitBlank (pyStrip (['a', '\n', '\n', 'b']))).map pyStrip ∧
    ¬ ([] ∈ reSplitBlank (pyStrip (['a', '\n', '\n', 'b']))) :=
  ⟨(c7_amended (['a', '\n', '\n', 'b'])).1,
    fun hmem => (c7_amended (['a', '\n', '\n', 'b'])).2.1 (by decide) [] hmem rfl⟩

/-- Claim C8 counterexample: setPlan normalises before validating, so the
lowercase plan id free, which is not in the closed set of identifiers, is
accepted instead of failing with InvalidPlan. -/
theorem c8_counterexample :
    (set_user_plan 1 (("free").toList) db0).2 = true ∧
    PLANS (("free").toList) = none := by decide

/-- Claim C8 (amended): setPlan fails exactly when the normalised plan id
`plan.upper().strip()` is not in the closed set, and when it fails no
persistence write has been performed: validation precedes every write. -/
theorem c8_amended (u : Nat) (plan : Str) (s : DB) :
    ((set_user_plan u plan s).2 = false
        ↔ PLANS (pyStrip (pyUpper plan)) = none) ∧
    ((set_user_plan u plan s).2 = false → (set_user_plan u plan s).1 = s) := by
  by_cases h : PLANS (pyStrip (pyUpper plan)) = none
  · constructor
    · simp [set_user_plan, h]
    · intro _
      simp [set_user_plan, h]
  · constructor
    · simp [set_user_plan, h]
    · intro hfalse
      simp [set_user_plan, h] at hfalse

/-- Claim C8 amended, witnessed: an unknown plan id is refused and the store
is unchanged. -/
theorem c8_amended_witness :
    (set_user_plan 1 (("GOLD").toList) db0).2 = false ∧
    (set_user_plan 1 (("GOLD").toList) db0).1 = db0 :=
  ⟨(c8_amended 1 (("GOLD").toList) db0).1.mpr (by decide),
    (c8_amended 1 (("GOLD").toList) db0).2 (by decide)⟩

/-- Claim C9 counterexample: a zero-page document is not rejected before the
ledger; the handler completes, and the ledger write happens, creating the
day row with value 0: a silent zero-cost reservation. -/
theorem c9_counterexample :
    (handle_document dayC 3 fnC (Pdf.pages []) db0).1
        = HandleResult.completed [] 0 10 none ∧
    ((handle_document dayC 3 fnC (Pdf.pages []) db0).2).usage 3 dayC = some 0 ∧
    db0.usage 3 dayC = none := by decide

/-- Claim C9 (amended): the ledger accepts pages = 0 rather than failing
with InvalidArgument: the upsert runs, creating or keeping the day row with
the usage value unchanged; and a document with zero extractable pages
reaches the ledger through the Orchestrator and is reserved as zero cost,
completing normally. -/
theorem c9_amended (day : Str) (u : Nat) (s : DB) :
    ((add_usage_today day u 0 s).usage u day = some (usedIn day u s) ∧
      usedIn day u (add_usage_today day u 0 s) = usedIn day u s) ∧
    (∀ fn, endsWithPdf (pyLower fn) = true → usedIn day u s ≤ limitOf u s →
      (handle_document day u fn (Pdf.pages []) s).1
          = HandleResult.completed [] (usedIn day u s) (limitOf u s)
              (if planOf u s = PREMIUM
                then some (build_docx_paragraphs []) else none) ∧
      ((handle_document day u fn (Pdf.pages []) s).2).usage u day
          = some (usedIn day u s)) := by
  constructor
  · constructor
    · have h1 := usage_add_at day u 0 s
      rw [Nat.add_zero] at h1
      exact h1
    · have h2 := usedIn_add_same day u 0 s
      rw [Nat.add_zero] at h2
      exact h2
  · intro fn hf hle
    have hle2 : usedIn day u s + ([] : List Str).length ≤ limitOf u s := by
      simpa using hle
    have he := (handle_pages_spec day u fn [] s hf).1 hle2
    constructor
    · rw [he]
      rfl
    · rw [he]
      show (add_usage_today day u ([] : List Str).length
        (ensure_user u s)).usage u day = _
      have h3 := usage_add_at day u 0 (ensure_user u s)
      rw [usedIn_ensure, Nat.add_zero] at h3
      exact h3

/-- Claim C9 amended, witnessed: a zero-cost upsert and a zero-page
conversion on a fresh user. -/
theorem c9_amended_witness :
    (add_usage_today dayC 4 0 db0).usage 4 dayC = some 0 ∧
    endsWithPdf (pyLower fnC) = true ∧
    usedIn dayC 4 db0 ≤ limitOf 4 db0 ∧
    (handle_document dayC 4 fnC (Pdf.pages []) db0).1
        = HandleResult.completed [] 0 10 none :=
  ⟨((c9_amended dayC 4 db0).1.1).trans (by decide), by decide, by decide, by
    have h := ((c9_amended dayC 4 db0).2 fnC (by decide) (by decide)).1
    exact h.trans (by decide)⟩

/-- Claim C10: every read-only query of the public interface,
get_user_plan and get_usage_today, first performs the idempotent FREE
insert: after the read the users table has a row for the user, an
already-set plan leaves the whole store untouched, and the usage table is
unchanged by the read. -/
theorem c10_read_queries (day : Str) (u : Nat) (s : DB) :
    (((get_user_plan u s).2).users u = some ((s.users u).getD FREE) ∧
      (∀ p, s.users u = some p → (get_user_plan u s).2 = s) ∧
      ((get_user_plan u s).2).usage = s.usage) ∧
    (((get_usage_today day u s).2).users u = some ((s.users u).getD FREE) ∧
      (∀ p, s.users u = some p → (get_usage_today day u s).2 = s) ∧
      ((get_usage_today day u s).2).usage = s.usage) := by
  have h1 : (get_user_plan u s).2 = ensure_user u s := rfl
  have h2 : (get_usage_today day u s).2 = ensure_user u s := rfl
  rw [h1, h2]
  exact ⟨⟨ensure_users_at u s, fun p hp => ensure_of_some hp, ensure_usage u s⟩,
    ⟨ensure_users_at u s, fun p hp => ensure_of_some hp, ensure_usage u s⟩⟩

/-- Claim C10 witnessed on a store where user 1 already has a plan row: both
reads leave the store unchanged and the row is still present. -/
theorem c10_witness :
    db1.users 1 = some FREE ∧
    ((get_user_plan 1 db1).2).users 1 = some FREE ∧
    (get_user_plan 1 db1).2 = db1 ∧
    (get_usage_today dayC 1 db1).2 = db1 ∧
    ((get_usage_today dayC 1 db1).2).usage = db1.usage :=
  ⟨by decide,
    ((c10_read_queries dayC 1 db1).1.1).trans (by decide),
    (c10_read_queries dayC 1 db1).1.2.1 FREE (by decide),
    (c10_read_queries dayC 1 db1).2.2.1 FREE (by decide),
    (c10_read_queries dayC 1 db1).2.2.2⟩
